import Mathlib

/-!
# Boiler finder of the lidar grapher

A shallow embedding of `lidar_grapher/boiler_find.cpp` (`calculate_angle`,
`get_angle`, `test_distance`, `get_boiler`) and of the list node of
`lidar_grapher/datatypes.h`.

* `int16_t` / `uint32_t` values are integers with explicit wrap-around.
* `float` values are real numbers (the rounding of the source's binary
  floating point is not modelled); `atan2` is the argument of the complex
  number `x + y i`, which ranges over `(-π, π]`.  A division whose divisor is
  zero and a conversion to `int16_t` of a value that does not fit have no
  value over the reals and are reported as a `Fault`.
* Pointers are addresses (`Nat`) into a `Memory`; the `while` loop of
  `get_boiler` runs on fuel, one unit per iteration.
* The constants of `boiler_find.h` are the fields of `Config`; `get_slope` of
  `math_util.h` is modelled from the specification.
* `Scan.examined` and `Scan.accepted` record what the loop did; the value
  `get_boiler` returns is `Scan.outcome`.
-/

namespace Lidar

/-! ## Data model -/

/-- The `line` record: a directed segment with `int16_t` coordinates. -/
structure line where
  start_x : Int
  start_y : Int
  end_x : Int
  end_y : Int
deriving DecidableEq, Repr

/-- The values of an `int16_t`. -/
def int16_range (v : Int) : Prop := -32768 ≤ v ∧ v ≤ 32767

instance (v : Int) : Decidable (int16_range v) := by
  unfold int16_range
  infer_instance

/-- A segment all of whose coordinates are `int16_t` values. -/
def line.well_formed (l : line) : Prop :=
  int16_range l.start_x ∧ int16_range l.start_y ∧ int16_range l.end_x ∧ int16_range l.end_y

instance (l : line) : Decidable l.well_formed := by
  unfold line.well_formed
  infer_instance

/-- The `boiler_location` record as `get_boiler` fills it. -/
structure boiler_location where
  delta_x : Int
  delta_y : Int
deriving DecidableEq, Repr

/-- The node of `datatypes.h`: the data it points to, and the addresses of
the next and the previous node. -/
structure doubly_linked_list_node where
  data : line
  next : Nat
  prev : Nat

/-- The nodes in memory, by address. -/
abbrev Memory := Nat → doubly_linked_list_node

/-- The constants of `boiler_find.h`, which the repository snapshot does not
contain: they are parameters of the model. -/
structure Config where
  TARGET_ANGLE : ℝ
  ANGLE_RANGE : ℝ
  ENDPOINT_DISTANCE : Nat
  BOILER_WIDTH : ℝ
  BOILER_DEPTH : ℝ
  BLUE_ALLIANCE : Nat
  RED_ALLIANCE : Nat

/-! ## Machine arithmetic -/

/-- Narrowing of an `int` to `int16_t` (two's complement wrap-around). -/
def wrap_int16 (v : Int) : Int := (v + 32768) % 65536 - 32768

/-- Conversion of an `int` to `uint32_t`. -/
def wrap_uint32 (v : Int) : Int := v % 4294967296

/-- What has no value in the real-number model of the `float` code. -/
inductive Fault where
  | division_by_zero
  | int16_conversion
deriving DecidableEq, Repr

/-- Division of two `float`s; a zero divisor is a fault. -/
noncomputable def float_div (a b : ℝ) : Except Fault ℝ :=
  if b = 0 then .error .division_by_zero else .ok (a / b)

/-- Rounding toward zero, as the conversion from `float` to an integer type does. -/
noncomputable def truncate (x : ℝ) : Int := if 0 ≤ x then ⌊x⌋ else ⌈x⌉

/-- Conversion of a `float` to `int16_t`: truncation, a fault when the
truncated value is not an `int16_t`. -/
noncomputable def to_int16 (x : ℝ) : Except Fault Int :=
  if int16_range (truncate x) then .ok (truncate x) else .error .int16_conversion

/-- The compound assignment `d += v` of a `float` `v` to an `int16_t` `d`:
the sum is formed in `float` and converted back.  Here the sum is the exact
real sum; the source rounds it to `float` first, so a sum within rounding
of an integer may truncate to the neighbouring integer in the source. -/
noncomputable def add_assign (d : Int) (v : ℝ) : Except Fault Int := to_int16 ((d : ℝ) + v)

/-- The library function `atan2(y, x)`: the angle of the point `(x, y)`,
in `(-π, π]`, and `0` at the origin. -/
noncomputable def atan2 (y x : ℝ) : ℝ := Complex.arg ⟨x, y⟩

/-! ## Angle and adjacency primitives -/

/-- `calculate_angle`: the angle of the vector from `end` to `start`. -/
noncomputable def calculate_angle (line1 : line) : ℝ :=
  atan2 ((line1.start_y - line1.end_y : Int) : ℝ) ((line1.start_x - line1.end_x : Int) : ℝ)

/-- `get_angle`: the difference of the two angles, plus `2π` when negative. -/
noncomputable def get_angle (line1 line2 : line) : ℝ :=
  let angle := calculate_angle line2 - calculate_angle line1
  if angle < 0 then angle + Real.pi * 2 else angle

/-- `test_distance`, the threshold `ENDPOINT_DISTANCE` given as argument (a
non-negative integer constant whose square is exact): the coordinate
differences are narrowed to `int16_t`, the sum of their squares is converted
to `uint32_t`. -/
def test_distance (ENDPOINT_DISTANCE : Nat) (line1 line2 : line) : Bool :=
  let x_distance := wrap_int16 (line1.end_x - line2.start_x)
  let y_distance := wrap_int16 (line1.end_y - line2.start_y)
  let distance := wrap_uint32 (x_distance * x_distance + y_distance * y_distance)
  decide (distance < (ENDPOINT_DISTANCE : Int) * (ENDPOINT_DISTANCE : Int))

/-! ## Offset resolver -/

/-- Modelled from the spec: `get_slope` of `math_util.h`, which the repository
snapshot does not contain; the slope `(end.y − start.y) / (end.x − start.x)`
of the segment from `(x1, y1)` to `(x2, y2)`. -/
noncomputable def get_slope (x1 y1 x2 y2 : Int) : Except Fault ℝ :=
  float_div ((y2 - y1 : Int) : ℝ) ((x2 - x1 : Int) : ℝ)

/-- The `BLUE_ALLIANCE` branch of `get_boiler`, on `seg_b = node->next->data`. -/
noncomputable def blue_branch (c : Config) (seg_b : line) : Except Fault boiler_location := do
  let delta_x := seg_b.start_x
  let delta_y := seg_b.start_y
  let slope ← get_slope seg_b.start_x seg_b.start_y seg_b.end_x seg_b.end_y
  if seg_b.end_x - seg_b.start_x < seg_b.end_y - seg_b.start_y then
    let width_denominator := 2 * Real.sqrt (1 + slope * slope) * (if slope > 0 then -1 else 1)
    let width_x ← float_div (slope * c.BOILER_WIDTH) width_denominator
    let delta_x ← add_assign delta_x width_x
    let width_y ← float_div c.BOILER_WIDTH width_denominator
    let delta_y ← add_assign delta_y width_y
    let inverse_square ← float_div 1 (slope * slope)
    let depth_denominator := Real.sqrt (1 + inverse_square)
    let depth_x ← float_div (-c.BOILER_DEPTH) (slope * depth_denominator)
    let delta_x ← add_assign delta_x depth_x
    let depth_y ← float_div c.BOILER_DEPTH depth_denominator
    let delta_y ← add_assign delta_y depth_y
    pure ⟨delta_x, delta_y⟩
  else
    let width_denominator := 2 * Real.sqrt (1 + slope * slope)
    let width_x ← float_div c.BOILER_WIDTH width_denominator
    let delta_x ← to_int16 width_x
    let width_y ← float_div (slope * c.BOILER_WIDTH) width_denominator
    let delta_y ← to_int16 width_y
    let inverse_square ← float_div 1 (slope * slope)
    let depth_denominator := Real.sqrt (1 + inverse_square) * (if slope > 0 then -1 else 1)
    let depth_x ← float_div (-c.BOILER_DEPTH) depth_denominator
    let delta_x ← add_assign delta_x depth_x
    let depth_y ← float_div c.BOILER_DEPTH (slope * depth_denominator)
    let delta_y ← add_assign delta_y depth_y
    pure ⟨delta_x, delta_y⟩

/-- The `RED_ALLIANCE` branch of `get_boiler`, on `seg_a = node->data`. -/
noncomputable def red_branch (c : Config) (seg_a : line) : Except Fault boiler_location := do
  let delta_x := seg_a.end_x
  let delta_y := seg_a.end_y
  let slope ← get_slope seg_a.start_x seg_a.start_y seg_a.end_x seg_a.end_y
  if seg_a.end_x - seg_a.start_x < seg_a.end_y - seg_a.start_y then
    let width_denominator := 2 * Real.sqrt (1 + slope * slope) * (if slope > 0 then -1 else 1)
    let width_x ← float_div (slope * c.BOILER_WIDTH) width_denominator
    let delta_x ← add_assign delta_x width_x
    let width_y ← float_div c.BOILER_WIDTH width_denominator
    let delta_y ← add_assign delta_y width_y
    let inverse_square ← float_div 1 (slope * slope)
    let depth_denominator := Real.sqrt (1 + inverse_square)
    let depth_x ← float_div c.BOILER_DEPTH (slope * depth_denominator)
    let delta_x ← add_assign delta_x depth_x
    let depth_y ← float_div (-c.BOILER_DEPTH) depth_denominator
    let delta_y ← add_assign delta_y depth_y
    pure ⟨delta_x, delta_y⟩
  else
    let width_denominator := 2 * Real.sqrt (1 + slope * slope)
    let width_x ← float_div c.BOILER_WIDTH width_denominator
    let delta_x ← add_assign delta_x width_x
    let width_y ← float_div (slope * c.BOILER_WIDTH) width_denominator
    let delta_y ← add_assign delta_y width_y
    let inverse_square ← float_div 1 (slope * slope)
    let depth_denominator := Real.sqrt (1 + inverse_square) * (if slope > 0 then -1 else 1)
    let depth_x ← float_div c.BOILER_DEPTH depth_denominator
    let delta_x ← add_assign delta_x depth_x
    let depth_y ← float_div (-c.BOILER_DEPTH) (slope * depth_denominator)
    let delta_y ← add_assign delta_y depth_y
    pure ⟨delta_x, delta_y⟩

/-! ## Corner scanner -/

/-- How a call of `get_boiler` ends. -/
inductive Outcome where
  | returned (location : boiler_location)
  | undefined (fault : Fault)
  | out_of_fuel
deriving DecidableEq

/-- The outcome of an alliance branch: the location is stored and returned. -/
def Outcome.of_branch : Except Fault boiler_location → Outcome
  | .ok location => .returned location
  | .error fault => .undefined fault

/-- A run of the scan loop: the nodes whose pair `(node, node->next)` was
examined, in order; the node of the pair that passed both tests, if any;
and how the call ended. -/
structure Scan where
  examined : List Nat
  accepted : Option Nat
  outcome : Outcome

/-- The `while` loop of `get_boiler`, entered with the current `node`; one
unit of fuel per iteration.  `location` is `(0, 0)` until a branch stores
a result, and both `break` and `finished = true` leave the loop. -/
noncomputable def get_boiler_loop (c : Config) (mem : Memory) (line_data_start : Nat)
    (alliance : Nat) : Nat → Nat → Scan
  | 0, _ => ⟨[], none, .out_of_fuel⟩
  | fuel + 1, node =>
    let next := (mem node).next
    let advance : Scan :=
      if next = line_data_start then ⟨[node], none, .returned ⟨0, 0⟩⟩
      else
        let rest := get_boiler_loop c mem line_data_start alliance fuel next
        ⟨node :: rest.examined, rest.accepted, rest.outcome⟩
    let angle := get_angle (mem node).data (mem next).data
    if angle < c.TARGET_ANGLE + c.ANGLE_RANGE ∧ angle > c.TARGET_ANGLE - c.ANGLE_RANGE then
      let nearby := test_distance c.ENDPOINT_DISTANCE (mem node).data (mem next).data
      if nearby = true then
        if alliance = c.BLUE_ALLIANCE then
          ⟨[node], some node, .of_branch (blue_branch c (mem next).data)⟩
        else if alliance = c.RED_ALLIANCE then
          ⟨[node], some node, .of_branch (red_branch c (mem node).data)⟩
        else ⟨[node], some node, .returned ⟨0, 0⟩⟩
      else advance
    else advance

/-- `get_boiler`: the loop entered at `line_data_start`. -/
noncomputable def get_boiler (c : Config) (mem : Memory) (line_data_start : Nat)
    (alliance : Nat) (fuel : Nat) : Scan :=
  get_boiler_loop c mem line_data_start alliance fuel line_data_start

/-! ## Rings -/

/-- The node reached from `start` by following `next` `k` times. -/
def nth_node (mem : Memory) (start : Nat) : Nat → Nat
  | 0 => start
  | k + 1 => (mem (nth_node mem start k)).next

/-- A validly circular ring of `n` segments: following `next` from `start`
comes back to `start` after `n` steps and not before. -/
def valid_ring (mem : Memory) (start n : Nat) : Prop :=
  0 < n ∧ nth_node mem start n = start ∧ ∀ k < n, 0 < k → nth_node mem start k ≠ start

instance (mem : Memory) (start n : Nat) : Decidable (valid_ring mem start n) := by
  unfold valid_ring
  infer_instance

/-- The angle test of the scan loop on the pair `(node, node->next)`. -/
def angle_in_window (c : Config) (mem : Memory) (node : Nat) : Prop :=
  get_angle (mem node).data (mem (mem node).next).data < c.TARGET_ANGLE + c.ANGLE_RANGE ∧
    get_angle (mem node).data (mem (mem node).next).data > c.TARGET_ANGLE - c.ANGLE_RANGE

/-- The adjacency test of the scan loop on the pair `(node, node->next)`. -/
def nearby (c : Config) (mem : Memory) (node : Nat) : Prop :=
  test_distance c.ENDPOINT_DISTANCE (mem node).data (mem (mem node).next).data = true

instance (c : Config) (mem : Memory) (node : Nat) : Decidable (nearby c mem node) := by
  unfold nearby
  infer_instance

/-- A qualifying corner: the pair `(node, node->next)` passes both tests. -/
def qualifies (c : Config) (mem : Memory) (node : Nat) : Prop :=
  angle_in_window c mem node ∧ nearby c mem node

/-- What `get_boiler` returns on the pair `(node, node->next)` once it has
passed both tests. -/
noncomputable def resolve (c : Config) (mem : Memory) (alliance : Nat) (node : Nat) : Outcome :=
  if alliance = c.BLUE_ALLIANCE then .of_branch (blue_branch c (mem (mem node).next).data)
  else if alliance = c.RED_ALLIANCE then .of_branch (red_branch c (mem node).data)
  else .returned ⟨0, 0⟩

/-- The nodes `start`, `start->next`, ... : the first `k` nodes in scan order. -/
def scan_nodes (mem : Memory) (start : Nat) (k : Nat) : List Nat :=
  (List.range k).map (nth_node mem start)

/-! ## The offset as anchor plus contributions -/

/-- The steep test of both alliance branches. -/
def steep (l : line) : Bool := decide (l.end_x - l.start_x < l.end_y - l.start_y)

/-- The slope of a segment as a real number. -/
noncomputable def slope_of (l : line) : ℝ :=
  ((l.end_y - l.start_y : Int) : ℝ) / ((l.end_x - l.start_x : Int) : ℝ)

/-- The factor `(slope > 0 ? -1.0f : 1.0f)`. -/
noncomputable def slope_sign (slope : ℝ) : ℝ := if slope > 0 then -1 else 1

/-- The two `BOILER_WIDTH` terms of the `BLUE_ALLIANCE` branch, `(x, y)`. -/
noncomputable def blue_width (c : Config) (is_steep : Bool) (slope : ℝ) : ℝ × ℝ :=
  if is_steep then
    (slope * c.BOILER_WIDTH / (2 * Real.sqrt (1 + slope * slope) * slope_sign slope),
      c.BOILER_WIDTH / (2 * Real.sqrt (1 + slope * slope) * slope_sign slope))
  else
    (c.BOILER_WIDTH / (2 * Real.sqrt (1 + slope * slope)),
      slope * c.BOILER_WIDTH / (2 * Real.sqrt (1 + slope * slope)))

/-- The two `BOILER_DEPTH` terms of the `BLUE_ALLIANCE` branch, `(x, y)`. -/
noncomputable def blue_depth (c : Config) (is_steep : Bool) (slope : ℝ) : ℝ × ℝ :=
  if is_steep then
    (-c.BOILER_DEPTH / (slope * Real.sqrt (1 + 1 / (slope * slope))),
      c.BOILER_DEPTH / Real.sqrt (1 + 1 / (slope * slope)))
  else
    (-c.BOILER_DEPTH / (Real.sqrt (1 + 1 / (slope * slope)) * slope_sign slope),
      c.BOILER_DEPTH / (slope * (Real.sqrt (1 + 1 / (slope * slope)) * slope_sign slope)))

/-- The two `BOILER_WIDTH` terms of the `RED_ALLIANCE` branch, `(x, y)`. -/
noncomputable def red_width (c : Config) (is_steep : Bool) (slope : ℝ) : ℝ × ℝ :=
  if is_steep then
    (slope * c.BOILER_WIDTH / (2 * Real.sqrt (1 + slope * slope) * slope_sign slope),
      c.BOILER_WIDTH / (2 * Real.sqrt (1 + slope * slope) * slope_sign slope))
  else
    (c.BOILER_WIDTH / (2 * Real.sqrt (1 + slope * slope)),
      slope * c.BOILER_WIDTH / (2 * Real.sqrt (1 + slope * slope)))

/-- The two `BOILER_DEPTH` terms of the `RED_ALLIANCE` branch, `(x, y)`. -/
noncomputable def red_depth (c : Config) (is_steep : Bool) (slope : ℝ) : ℝ × ℝ :=
  if is_steep then
    (c.BOILER_DEPTH / (slope * Real.sqrt (1 + 1 / (slope * slope))),
      -c.BOILER_DEPTH / Real.sqrt (1 + 1 / (slope * slope)))
  else
    (c.BOILER_DEPTH / (Real.sqrt (1 + 1 / (slope * slope)) * slope_sign slope),
      -c.BOILER_DEPTH / (slope * (Real.sqrt (1 + 1 / (slope * slope)) * slope_sign slope)))

/-- The anchor `(x, y)` plus a width and a depth contribution, each added
by a `+=` on the `int16_t` coordinates, `x` before `y`. -/
noncomputable def anchor_plus (x y : Int) (width depth : ℝ × ℝ) : Except Fault boiler_location := do
  let x ← add_assign x width.1
  let y ← add_assign y width.2
  let x ← add_assign x depth.1
  let y ← add_assign y depth.2
  pure ⟨x, y⟩

/-! ## Geometry of the contributions -/

/-- The Euclidean length of a vector. -/
noncomputable def euclidean_length (v : ℝ × ℝ) : ℝ := Real.sqrt (v.1 * v.1 + v.2 * v.2)

/-- The vector `v` is parallel to the direction `d`: their cross product is zero. -/
def parallel_to (v d : ℝ × ℝ) : Prop := v.1 * d.2 - v.2 * d.1 = 0

/-- The vector `v` is perpendicular to the direction `d`: their dot product is zero. -/
def perpendicular_to (v d : ℝ × ℝ) : Prop := v.1 * d.1 + v.2 * d.2 = 0

/-- Sample constants: a target angle of 135°, a tolerance of 45°. -/
noncomputable def sample_config : Config where
  TARGET_ANGLE := 3 * Real.pi / 4
  ANGLE_RANGE := Real.pi / 4
  ENDPOINT_DISTANCE := 100
  BOILER_WIDTH := 10
  BOILER_DEPTH := 5
  BLUE_ALLIANCE := 0
  RED_ALLIANCE := 1

/-- A ring of the two nodes `1` and `2`, holding the segments `a` and `b`. -/
def two_ring (a b : line) : Memory :=
  fun p => if p = 1 then ⟨a, 2, 2⟩ else ⟨b, 1, 1⟩

/-- A corner whose second segment has slope `3/4` and is shallow. -/
def blue_corner_ring : Memory :=
  two_ring ⟨1000, 1010, 1000, 1000⟩ ⟨1000, 1000, 1004, 1003⟩

/-- The corner of `blue_corner_ring` with the second segment moved away. -/
def gap_ring : Memory :=
  two_ring ⟨1000, 1010, 1000, 1000⟩ ⟨2000, 2000, 2004, 2003⟩

/-- Two adjacent segments that meet at a turn angle of exactly 90°. -/
def boundary_ring : Memory :=
  two_ring ⟨100, 0, 0, 0⟩ ⟨0, 0, 0, -100⟩

/-- Sample constants whose tolerance equals the target angle, so that the
lower end `TARGET_ANGLE - ANGLE_RANGE` of the window is exactly `0`. -/
noncomputable def wide_config : Config where
  TARGET_ANGLE := 3 * Real.pi / 4
  ANGLE_RANGE := 3 * Real.pi / 4
  ENDPOINT_DISTANCE := 100
  BOILER_WIDTH := 10
  BOILER_DEPTH := 5
  BLUE_ALLIANCE := 0
  RED_ALLIANCE := 1

/-- Two segments on one line with the same direction, the second starting
where the first ends: both angles are `atan2(0, 100) = 0` and both turn
angles are exactly `0`. -/
def straight_ring : Memory :=
  two_ring ⟨200, 0, 100, 0⟩ ⟨100, 0, 0, 0⟩

/-! ## Theorems -/

/-- The angle of a segment lies in `(-π, π]`. -/
theorem calculate_angle_bounds (l : line) :
    -Real.pi < calculate_angle l ∧ calculate_angle l ≤ Real.pi := by
  unfold calculate_angle atan2
  exact ⟨Complex.neg_pi_lt_arg _, Complex.arg_le_pi _⟩

/-- C4: over the reals, `get_angle line1 line2` is the difference
`calculate_angle line2 - calculate_angle line1`, plus `2π` when that
difference is negative, and it lies in `[0, 2π)`; this holds for all
segments, the non-degenerate ones in particular. -/
theorem get_angle_range (line1 line2 : line) :
    get_angle line1 line2 =
        (if calculate_angle line2 - calculate_angle line1 < 0
          then calculate_angle line2 - calculate_angle line1 + 2 * Real.pi
          else calculate_angle line2 - calculate_angle line1) ∧
      0 ≤ get_angle line1 line2 ∧ get_angle line1 line2 < 2 * Real.pi := by
  have h1 := calculate_angle_bounds line1
  have h2 := calculate_angle_bounds line2
  unfold get_angle
  simp only []
  split_ifs with h
  · exact ⟨by ring, by linarith, by linarith⟩
  · exact ⟨rfl, by linarith, by linarith⟩

/-- C5 (failing input): the end point `(32767, 0)` and the start point
`(-32768, 0)` are `65535` apart, yet `test_distance` with threshold `100`
answers true, because the difference `65535` is narrowed to `-1`. -/
theorem test_distance_narrowing_wraps :
    line.well_formed ⟨0, 0, 32767, 0⟩ ∧ line.well_formed ⟨-32768, 0, 0, 0⟩ ∧
      test_distance 100 ⟨0, 0, 32767, 0⟩ ⟨-32768, 0, 0, 0⟩ = true ∧
      ¬ ((32767 - (-32768) : Int) ^ 2 + (0 - 0 : Int) ^ 2 < (100 : Int) ^ 2) := by
  decide

/-! ### One iteration of the scan loop -/

theorem loop_accept (c : Config) (mem : Memory) (start alliance fuel node : Nat)
    (hq : qualifies c mem node) :
    get_boiler_loop c mem start alliance (fuel + 1) node =
      ⟨[node], some node, resolve c mem alliance node⟩ := by
  obtain ⟨ha, hn⟩ := hq
  unfold angle_in_window at ha
  unfold nearby at hn
  simp only [get_boiler_loop, resolve]
  rw [if_pos ha, if_pos hn]
  split_ifs <;> rfl

theorem loop_wrap (c : Config) (mem : Memory) (start alliance fuel node : Nat)
    (hq : ¬ qualifies c mem node) (hs : (mem node).next = start) :
    get_boiler_loop c mem start alliance (fuel + 1) node =
      ⟨[node], none, .returned ⟨0, 0⟩⟩ := by
  simp only [get_boiler_loop]
  by_cases ha : angle_in_window c mem node
  · have hn : ¬ nearby c mem node := fun h => hq ⟨ha, h⟩
    unfold angle_in_window at ha
    unfold nearby at hn
    rw [if_pos ha, if_neg hn, if_pos hs]
  · unfold angle_in_window at ha
    rw [if_neg ha, if_pos hs]

theorem loop_advance (c : Config) (mem : Memory) (start alliance fuel node : Nat)
    (hq : ¬ qualifies c mem node) (hs : (mem node).next ≠ start) :
    get_boiler_loop c mem start alliance (fuel + 1) node =
      ⟨node :: (get_boiler_loop c mem start alliance fuel (mem node).next).examined,
        (get_boiler_loop c mem start alliance fuel (mem node).next).accepted,
        (get_boiler_loop c mem start alliance fuel (mem node).next).outcome⟩ := by
  simp only [get_boiler_loop]
  by_cases ha : angle_in_window c mem node
  · have hn : ¬ nearby c mem node := fun h => hq ⟨ha, h⟩
    unfold angle_in_window at ha
    unfold nearby at hn
    rw [if_pos ha, if_neg hn, if_neg hs]
  · unfold angle_in_window at ha
    rw [if_neg ha, if_neg hs]

/-! ### Walking along `next` -/

theorem nth_node_front (mem : Memory) (p : Nat) (k : Nat) :
    nth_node mem p (k + 1) = nth_node mem (mem p).next k := by
  induction k with
  | zero => rfl
  | succ k ih =>
    show (mem (nth_node mem p (k + 1))).next = (mem (nth_node mem (mem p).next k)).next
    rw [ih]

theorem nth_node_add (mem : Memory) (p : Nat) (j k : Nat) :
    nth_node mem (nth_node mem p j) k = nth_node mem p (j + k) := by
  induction k with
  | zero => rfl
  | succ k ih =>
    show (mem (nth_node mem (nth_node mem p j) k)).next = (mem (nth_node mem p (j + k))).next
    rw [ih]

theorem scan_nodes_front (mem : Memory) (p : Nat) (k : Nat) :
    scan_nodes mem p (k + 1) = p :: scan_nodes mem (mem p).next k := by
  unfold scan_nodes
  rw [List.range_succ_eq_map, List.map_cons, List.map_map]
  congr 1
  apply List.map_congr_left
  intro a _
  exact nth_node_front mem p a

theorem scan_nodes_length (mem : Memory) (p : Nat) (k : Nat) :
    (scan_nodes mem p k).length = k := by
  simp [scan_nodes]

/-! ### The scan as a whole -/

/-- The scan stops at the first qualifying pair: entered at `p`, if the pair
at `i` steps qualifies, no earlier pair does, and none of the first `i`
steps comes back to `start`, the loop accepts that pair. -/
theorem loop_first_match (c : Config) (mem : Memory) (start alliance : Nat) :
    ∀ (i p fuel : Nat), i < fuel →
      qualifies c mem (nth_node mem p i) →
      (∀ k < i, ¬ qualifies c mem (nth_node mem p k)) →
      (∀ k, 0 < k → k ≤ i → nth_node mem p k ≠ start) →
      get_boiler_loop c mem start alliance fuel p =
        ⟨scan_nodes mem p (i + 1), some (nth_node mem p i),
          resolve c mem alliance (nth_node mem p i)⟩ := by
  intro i
  induction i with
  | zero =>
    intro p fuel hf hq _ _
    obtain ⟨f, rfl⟩ : ∃ f, fuel = f + 1 := ⟨fuel - 1, by omega⟩
    rw [loop_accept c mem start alliance f p hq]
    rfl
  | succ i ih =>
    intro p fuel hf hq hnq hns
    obtain ⟨f, rfl⟩ : ∃ f, fuel = f + 1 := ⟨fuel - 1, by omega⟩
    have h0 : ¬ qualifies c mem p := hnq 0 (by omega)
    have h1 : (mem p).next ≠ start := hns 1 (by omega) (by omega)
    rw [loop_advance c mem start alliance f p h0 h1]
    rw [nth_node_front] at hq
    have := ih (mem p).next f (by omega) hq
      (fun k hk => by
        have := hnq (k + 1) (by omega)
        rwa [nth_node_front] at this)
      (fun k hk0 hk => by
        have := hns (k + 1) (by omega) (by omega)
        rwa [nth_node_front] at this)
    rw [this, scan_nodes_front mem p (i + 1), nth_node_front]

/-- Without a qualifying pair the scan runs until `next` is `start`. -/
theorem loop_no_match (c : Config) (mem : Memory) (start alliance : Nat) :
    ∀ (m p fuel : Nat), m < fuel →
      (∀ k ≤ m, ¬ qualifies c mem (nth_node mem p k)) →
      (∀ k, 0 < k → k ≤ m → nth_node mem p k ≠ start) →
      nth_node mem p (m + 1) = start →
      get_boiler_loop c mem start alliance fuel p =
        ⟨scan_nodes mem p (m + 1), none, .returned ⟨0, 0⟩⟩ := by
  intro m
  induction m with
  | zero =>
    intro p fuel hf hnq _ hend
    obtain ⟨f, rfl⟩ : ∃ f, fuel = f + 1 := ⟨fuel - 1, by omega⟩
    rw [loop_wrap c mem start alliance f p (hnq 0 (by omega)) hend]
    rfl
  | succ m ih =>
    intro p fuel hf hnq hns hend
    obtain ⟨f, rfl⟩ : ∃ f, fuel = f + 1 := ⟨fuel - 1, by omega⟩
    have h0 : ¬ qualifies c mem p := hnq 0 (by omega)
    have h1 : (mem p).next ≠ start := hns 1 (by omega) (by omega)
    rw [loop_advance c mem start alliance f p h0 h1]
    rw [nth_node_front] at hend
    have := ih (mem p).next f (by omega)
      (fun k hk => by
        have := hnq (k + 1) (by omega)
        rwa [nth_node_front] at this)
      (fun k hk0 hk => by
        have := hns (k + 1) (by omega) (by omega)
        rwa [nth_node_front] at this)
      hend
    rw [this, scan_nodes_front mem p (m + 1)]

/-- Among the first `n` pairs, a qualifying one has a first one. -/
theorem exists_first_qualifying (c : Config) (mem : Memory) (start n : Nat)
    (h : ∃ k < n, qualifies c mem (nth_node mem start k)) :
    ∃ i < n, qualifies c mem (nth_node mem start i) ∧
      ∀ k < i, ¬ qualifies c mem (nth_node mem start k) := by
  classical
  have h' : ∃ k, k < n ∧ qualifies c mem (nth_node mem start k) := by
    obtain ⟨k, hk, hq⟩ := h
    exact ⟨k, hk, hq⟩
  refine ⟨Nat.find h', (Nat.find_spec h').1, (Nat.find_spec h').2, ?_⟩
  intro k hk hq
  exact Nat.find_min h' hk ⟨lt_trans hk (Nat.find_spec h').1, hq⟩

/-- On a valid ring `get_boiler` accepts the first qualifying pair. -/
theorem get_boiler_found (c : Config) (mem : Memory) (start n alliance fuel i : Nat)
    (hr : valid_ring mem start n) (hf : n ≤ fuel) (hi : i < n)
    (hq : qualifies c mem (nth_node mem start i))
    (hnq : ∀ k < i, ¬ qualifies c mem (nth_node mem start k)) :
    get_boiler c mem start alliance fuel =
      ⟨scan_nodes mem start (i + 1), some (nth_node mem start i),
        resolve c mem alliance (nth_node mem start i)⟩ := by
  unfold get_boiler
  exact loop_first_match c mem start alliance i start fuel (by omega) hq hnq
    (fun k hk0 hk => hr.2.2 k (by omega) hk0)

/-- On a valid ring without qualifying pair `get_boiler` examines all `n`
pairs and returns the sentinel. -/
theorem get_boiler_not_found (c : Config) (mem : Memory) (start n alliance fuel : Nat)
    (hr : valid_ring mem start n) (hf : n ≤ fuel)
    (hnq : ∀ k < n, ¬ qualifies c mem (nth_node mem start k)) :
    get_boiler c mem start alliance fuel =
      ⟨scan_nodes mem start n, none, .returned ⟨0, 0⟩⟩ := by
  unfold get_boiler
  obtain ⟨hn, hclose, hfirst⟩ := hr
  obtain ⟨m, rfl⟩ : ∃ m, n = m + 1 := ⟨n - 1, by omega⟩
  exact loop_no_match c mem start alliance m start fuel (by omega)
    (fun k hk => hnq k (by omega)) (fun k hk0 hk => hfirst k (by omega) hk0) hclose

/-- The two ways a call on a valid ring ends. -/
theorem get_boiler_cases (c : Config) (mem : Memory) (start n alliance fuel : Nat)
    (hr : valid_ring mem start n) (hf : n ≤ fuel) :
    (∃ i < n, qualifies c mem (nth_node mem start i) ∧
        (∀ k < i, ¬ qualifies c mem (nth_node mem start k)) ∧
        get_boiler c mem start alliance fuel =
          ⟨scan_nodes mem start (i + 1), some (nth_node mem start i),
            resolve c mem alliance (nth_node mem start i)⟩) ∨
      ((∀ k < n, ¬ qualifies c mem (nth_node mem start k)) ∧
        get_boiler c mem start alliance fuel =
          ⟨scan_nodes mem start n, none, .returned ⟨0, 0⟩⟩) := by
  by_cases h : ∃ k < n, qualifies c mem (nth_node mem start k)
  · obtain ⟨i, hi, hq, hnq⟩ := exists_first_qualifying c mem start n h
    exact Or.inl ⟨i, hi, hq, hnq, get_boiler_found c mem start n alliance fuel i hr hf hi hq hnq⟩
  · have hnq : ∀ k < n, ¬ qualifies c mem (nth_node mem start k) :=
      fun k hk hq => h ⟨k, hk, hq⟩
    exact Or.inr ⟨hnq, get_boiler_not_found c mem start n alliance fuel hr hf hnq⟩

theorem resolve_invalid_alliance (c : Config) (mem : Memory) (alliance node : Nat)
    (hb : alliance ≠ c.BLUE_ALLIANCE) (hred : alliance ≠ c.RED_ALLIANCE) :
    resolve c mem alliance node = .returned ⟨0, 0⟩ := by
  unfold resolve
  rw [if_neg hb, if_neg hred]

/-! ### Walking a valid ring -/

theorem nth_node_period (mem : Memory) (start n : Nat) (hr : valid_ring mem start n) (k : Nat) :
    nth_node mem start (n + k) = nth_node mem start k := by
  rw [← nth_node_add, hr.2.1]

theorem nth_node_mod (mem : Memory) (start n : Nat) (hr : valid_ring mem start n) (k : Nat) :
    nth_node mem start k = nth_node mem start (k % n) := by
  induction k using Nat.strong_induction_on with
  | _ k ih =>
    by_cases hk : k < n
    · rw [Nat.mod_eq_of_lt hk]
    · obtain ⟨j, rfl⟩ : ∃ j, k = n + j := ⟨k - n, by omega⟩
      rw [nth_node_period mem start n hr, ih j (by have := hr.1; omega), Nat.add_mod_left]

/-- The `n` nodes of a valid ring are pairwise distinct. -/
theorem nth_node_injective (mem : Memory) (start n : Nat) (hr : valid_ring mem start n)
    (a b : Nat) (ha : a < n) (hb : b < n) (h : nth_node mem start a = nth_node mem start b) :
    a = b := by
  have key : ∀ x y, x < y → y < n → nth_node mem start x ≠ nth_node mem start y := by
    intro x y hxy hy hxe
    have h1 : nth_node mem start (x + (n - y)) = nth_node mem start (y + (n - y)) := by
      rw [← nth_node_add, ← nth_node_add, hxe]
    have h2 : y + (n - y) = n := by omega
    rw [h2, hr.2.1] at h1
    exact hr.2.2 (x + (n - y)) (by omega) (by omega) h1
  rcases Nat.lt_trichotomy a b with hab | hab | hab
  · exact absurd h (key a b hab hb)
  · exact hab
  · exact absurd h.symm (key b a hab ha)

theorem scan_nodes_nodup (mem : Memory) (start n : Nat) (hr : valid_ring mem start n)
    (k : Nat) (hk : k ≤ n) : (scan_nodes mem start k).Nodup := by
  unfold scan_nodes
  refine (List.nodup_range k).map_on ?_
  intro a ha b hb hab
  rw [List.mem_range] at ha hb
  exact nth_node_injective mem start n hr a b (by omega) (by omega) hab

/-- Every node of a valid ring is the start of the same ring. -/
theorem valid_ring_rotate (mem : Memory) (start n : Nat) (hr : valid_ring mem start n)
    (j : Nat) : valid_ring mem (nth_node mem start j) n := by
  refine ⟨hr.1, ?_, ?_⟩
  · rw [nth_node_add, Nat.add_comm, nth_node_period mem start n hr]
  · intro k hk hk0 h
    rw [nth_node_add, nth_node_mod mem start n hr (j + k), nth_node_mod mem start n hr j] at h
    have hn := hr.1
    have := nth_node_injective mem start n hr _ _ (Nat.mod_lt _ hn) (Nat.mod_lt _ hn) h
    have h3 : (j + k) % n = (j % n + k) % n := by
      rw [Nat.add_mod, Nat.mod_eq_of_lt hk, Nat.add_mod (j % n) k, Nat.mod_mod,
        Nat.mod_eq_of_lt hk]
    rw [h3] at this
    have hj : j % n < n := Nat.mod_lt _ hn
    by_cases hlt : j % n + k < n
    · rw [Nat.mod_eq_of_lt hlt] at this
      omega
    · have h4 : (j % n + k) % n = j % n + k - n := by
        rw [Nat.mod_eq_sub_mod (by omega), Nat.mod_eq_of_lt (by omega)]
      rw [h4] at this
      omega

theorem resolve_ne_out_of_fuel (c : Config) (mem : Memory) (alliance node : Nat) :
    resolve c mem alliance node ≠ .out_of_fuel := by
  unfold resolve
  split_ifs
  · cases blue_branch c (mem (mem node).next).data <;> simp [Outcome.of_branch]
  · cases red_branch c (mem node).data <;> simp [Outcome.of_branch]
  · simp

/-- The first qualifying pair met from a rotated start, when the ring has
exactly one qualifying pair, at index `q` from `start`. -/
theorem rotated_first_match (c : Config) (mem : Memory) (start n q j : Nat)
    (hr : valid_ring mem start n) (hq : q < n)
    (huniq : ∀ k < n, qualifies c mem (nth_node mem start k) → k = q) (hj : j < n) :
    ∃ i < n, nth_node mem (nth_node mem start j) i = nth_node mem start q ∧
      ∀ k < i, ¬ qualifies c mem (nth_node mem (nth_node mem start j) k) := by
  by_cases hjq : j ≤ q
  · refine ⟨q - j, by omega, ?_, ?_⟩
    · rw [nth_node_add]
      congr 1
      omega
    · intro k hk hqk
      rw [nth_node_add] at hqk
      have := huniq (j + k) (by omega) hqk
      omega
  · refine ⟨q + n - j, by omega, ?_, ?_⟩
    · rw [nth_node_add]
      have : j + (q + n - j) = n + q := by omega
      rw [this, nth_node_period mem start n hr]
    · intro k hk hqk
      rw [nth_node_add] at hqk
      by_cases hlt : j + k < n
      · have := huniq (j + k) hlt hqk
        omega
      · have h2 : j + k = n + (j + k - n) := by omega
        rw [h2, nth_node_period mem start n hr] at hqk
        have := huniq (j + k - n) (by omega) hqk
        omega

/-- The scan reads a memory only at the nodes it examines and at the second
node of the last pair. -/
theorem nth_node_congr (mem mem' : Memory) (start : Nat) :
    ∀ (i : Nat), (∀ k < i, (mem' (nth_node mem start k)).next = (mem (nth_node mem start k)).next) →
      nth_node mem' start i = nth_node mem start i := by
  intro i
  induction i with
  | zero => intro _; rfl
  | succ i ih =>
    intro h
    show (mem' (nth_node mem' start i)).next = (mem (nth_node mem start i)).next
    rw [ih (fun k hk => h k (by omega)), h i (by omega)]

theorem qualifies_congr (c : Config) (mem mem' : Memory) (node : Nat)
    (hd : (mem' node).data = (mem node).data) (hn : (mem' node).next = (mem node).next)
    (hd' : (mem' (mem node).next).data = (mem (mem node).next).data) :
    qualifies c mem' node ↔ qualifies c mem node := by
  unfold qualifies angle_in_window nearby
  rw [hn, hd, hd']

theorem resolve_congr (c : Config) (mem mem' : Memory) (alliance node : Nat)
    (hd : (mem' node).data = (mem node).data) (hn : (mem' node).next = (mem node).next)
    (hd' : (mem' (mem node).next).data = (mem (mem node).next).data) :
    resolve c mem' alliance node = resolve c mem alliance node := by
  unfold resolve
  rw [hn, hd, hd']

theorem scan_nodes_congr (mem mem' : Memory) (start i : Nat)
    (h : ∀ k < i, (mem' (nth_node mem start k)).next = (mem (nth_node mem start k)).next) :
    scan_nodes mem' start (i + 1) = scan_nodes mem start (i + 1) := by
  unfold scan_nodes
  apply List.map_congr_left
  intro a ha
  rw [List.mem_range] at ha
  exact nth_node_congr mem mem' start a (fun k hk => h k (by omega))

/-! ### The scanner's contract -/

/-- C1: on a valid circular ring, for an alliance value that is neither
`BLUE_ALLIANCE` nor `RED_ALLIANCE`, `get_boiler` returns the sentinel
`(0, 0)`, whatever the segments are (a qualifying corner included). -/
theorem get_boiler_invalid_alliance (c : Config) (mem : Memory) (start n alliance fuel : Nat)
    (hr : valid_ring mem start n) (hf : n ≤ fuel)
    (hb : alliance ≠ c.BLUE_ALLIANCE) (hred : alliance ≠ c.RED_ALLIANCE) :
    (get_boiler c mem start alliance fuel).outcome = .returned ⟨0, 0⟩ := by
  rcases get_boiler_cases c mem start n alliance fuel hr hf with ⟨i, _, _, _, h⟩ | ⟨_, h⟩
  · rw [h]
    exact resolve_invalid_alliance c mem alliance _ hb hred
  · rw [h]

/-- C2: on a valid circular ring, from every start and for every alliance,
if every consecutive pair (the wrap-around pair included) whose turn angle
lies in `[TARGET_ANGLE - ANGLE_RANGE, TARGET_ANGLE + ANGLE_RANGE]` fails
`test_distance` (in particular if no pair has its angle in that window),
`get_boiler` accepts nothing and returns the sentinel `(0, 0)`. -/
theorem get_boiler_no_corner (c : Config) (mem : Memory) (start n alliance fuel : Nat)
    (hr : valid_ring mem start n) (hf : n ≤ fuel)
    (h : ∀ k < n,
      c.TARGET_ANGLE - c.ANGLE_RANGE ≤
          get_angle (mem (nth_node mem start k)).data (mem (nth_node mem start (k + 1))).data →
      get_angle (mem (nth_node mem start k)).data (mem (nth_node mem start (k + 1))).data ≤
          c.TARGET_ANGLE + c.ANGLE_RANGE →
      test_distance c.ENDPOINT_DISTANCE (mem (nth_node mem start k)).data
          (mem (nth_node mem start (k + 1))).data = false) :
    (get_boiler c mem start alliance fuel).accepted = none ∧
      (get_boiler c mem start alliance fuel).outcome = .returned ⟨0, 0⟩ := by
  have hnq : ∀ k < n, ¬ qualifies c mem (nth_node mem start k) := by
    intro k hk hq
    obtain ⟨⟨h1, h2⟩, h3⟩ := hq
    have h4 := h k hk (le_of_lt h2) (le_of_lt h1)
    unfold nearby at h3
    rw [show nth_node mem start (k + 1) = (mem (nth_node mem start k)).next from rfl] at h4
    rw [h4] at h3
    exact Bool.false_ne_true h3
  rw [get_boiler_not_found c mem start n alliance fuel hr hf hnq]
  exact ⟨rfl, rfl⟩

/-- C3: rotation invariance.  On a valid circular ring of `n` segments with
exactly one qualifying corner (the pair at index `q`), `get_boiler` entered
at any of the `n` nodes accepts that pair and ends as it does when entered
at `start`. -/
theorem get_boiler_rotation_invariant (c : Config) (mem : Memory)
    (start n alliance fuel q j : Nat)
    (hr : valid_ring mem start n) (hf : n ≤ fuel) (hq : q < n)
    (hqual : qualifies c mem (nth_node mem start q))
    (huniq : ∀ k < n, qualifies c mem (nth_node mem start k) → k = q) (hj : j < n) :
    (get_boiler c mem (nth_node mem start j) alliance fuel).accepted =
        some (nth_node mem start q) ∧
      (get_boiler c mem (nth_node mem start j) alliance fuel).accepted =
        (get_boiler c mem start alliance fuel).accepted ∧
      (get_boiler c mem (nth_node mem start j) alliance fuel).outcome =
        (get_boiler c mem start alliance fuel).outcome := by
  have h0 := get_boiler_found c mem start n alliance fuel q hr hf hq hqual
    (fun k hk hqk => by
      have := huniq k (by omega) hqk
      omega)
  obtain ⟨i, hi, hnode, hfirst⟩ := rotated_first_match c mem start n q j hr hq huniq hj
  have h1 := get_boiler_found c mem (nth_node mem start j) n alliance fuel i
    (valid_ring_rotate mem start n hr j) hf hi (by rw [hnode]; exact hqual) hfirst
  rw [h0, h1, hnode]
  exact ⟨rfl, rfl, rfl⟩

/-- C6: first match.  On a valid circular ring, if the pair at index `i`
from the start passes both tests and no earlier pair does, `get_boiler`
accepts that pair and ends with what the alliance branch computes from it;
and the whole run is the same in every memory that agrees on the pairs
scanned up to and including that one. -/
theorem get_boiler_first_match (c : Config) (mem : Memory) (start n alliance fuel i : Nat)
    (hr : valid_ring mem start n) (hf : n ≤ fuel) (hi : i < n)
    (hq : qualifies c mem (nth_node mem start i))
    (hfirst : ∀ k < i, ¬ qualifies c mem (nth_node mem start k)) :
    (get_boiler c mem start alliance fuel).accepted = some (nth_node mem start i) ∧
      (get_boiler c mem start alliance fuel).outcome =
        (if alliance = c.BLUE_ALLIANCE then
          .of_branch (blue_branch c (mem (nth_node mem start (i + 1))).data)
        else if alliance = c.RED_ALLIANCE then
          .of_branch (red_branch c (mem (nth_node mem start i)).data)
        else .returned ⟨0, 0⟩) ∧
      ∀ (mem' : Memory) (fuel' : Nat), i < fuel' →
        (∀ k ≤ i, (mem' (nth_node mem start k)).data = (mem (nth_node mem start k)).data ∧
          (mem' (nth_node mem start k)).next = (mem (nth_node mem start k)).next) →
        (mem' (nth_node mem start (i + 1))).data = (mem (nth_node mem start (i + 1))).data →
        get_boiler c mem' start alliance fuel' = get_boiler c mem start alliance fuel := by
  have h0 := get_boiler_found c mem start n alliance fuel i hr hf hi hq hfirst
  refine ⟨by rw [h0], by rw [h0]; rfl, ?_⟩
  intro mem' fuel' hf' hagree hlast
  have hnode : ∀ k ≤ i + 1, nth_node mem' start k = nth_node mem start k := fun k hk =>
    nth_node_congr mem mem' start k (fun a ha => (hagree a (by omega)).2)
  have hdata : ∀ k ≤ i + 1,
      (mem' (nth_node mem start k)).data = (mem (nth_node mem start k)).data := by
    intro k hk
    by_cases hki : k ≤ i
    · exact (hagree k hki).1
    · have : k = i + 1 := by omega
      rw [this]
      exact hlast
  have hqc : ∀ k ≤ i, (qualifies c mem' (nth_node mem' start k) ↔
      qualifies c mem (nth_node mem start k)) := by
    intro k hk
    rw [hnode k (by omega)]
    exact qualifies_congr c mem mem' _ (hagree k hk).1 (hagree k hk).2 (hdata (k + 1) (by omega))
  have h1 := loop_first_match c mem' start alliance i start fuel' hf'
    ((hqc i le_rfl).2 hq) (fun k hk hqk => hfirst k hk ((hqc k (by omega)).1 hqk))
    (fun k hk0 hk => by
      rw [hnode k (by omega)]
      exact hr.2.2 k (by omega) hk0)
  unfold get_boiler at h0 ⊢
  rw [h0, h1, hnode i (by omega),
    scan_nodes_congr mem mem' start i (fun k hk => (hagree k (by omega)).2),
    resolve_congr c mem mem' alliance _ (hagree i le_rfl).1 (hagree i le_rfl).2
      (hdata (i + 1) le_rfl)]

/-- C9: termination and bound.  On a valid circular ring of `n ≥ 1` segments,
for every alliance, the scan loop ends within `n` iterations (more fuel
changes nothing); the pairs it examines are the first `k` pairs in scan
order from the start, for some `1 ≤ k ≤ n`, each once; and when nothing is
accepted they are all `n` pairs, the wrap-around pair included. -/
theorem get_boiler_terminates (c : Config) (mem : Memory) (start n alliance fuel : Nat)
    (hr : valid_ring mem start n) (hf : n ≤ fuel) :
    (get_boiler c mem start alliance fuel).outcome ≠ .out_of_fuel ∧
      get_boiler c mem start alliance fuel = get_boiler c mem start alliance n ∧
      (∃ k, 1 ≤ k ∧ k ≤ n ∧
        (get_boiler c mem start alliance fuel).examined = scan_nodes mem start k) ∧
      (get_boiler c mem start alliance fuel).examined.length ≤ n ∧
      (get_boiler c mem start alliance fuel).examined.Nodup ∧
      ((get_boiler c mem start alliance fuel).accepted = none →
        (get_boiler c mem start alliance fuel).examined = scan_nodes mem start n ∧
          (mem (nth_node mem start (n - 1))).next = start) := by
  have hwrap : (mem (nth_node mem start (n - 1))).next = start := by
    have h1 := hr.1
    have h2 := hr.2.1
    obtain ⟨m, rfl⟩ : ∃ m, n = m + 1 := ⟨n - 1, by omega⟩
    exact h2
  rcases get_boiler_cases c mem start n alliance fuel hr hf with ⟨i, hi, hq, hnq, h⟩ | ⟨hnq, h⟩
  · have h' := get_boiler_found c mem start n alliance n i hr le_rfl hi hq hnq
    refine ⟨?_, by rw [h, h'], ⟨i + 1, by omega, by omega, by rw [h]⟩, ?_, ?_, ?_⟩
    · rw [h]
      exact resolve_ne_out_of_fuel c mem alliance _
    · rw [h]
      show (scan_nodes mem start (i + 1)).length ≤ n
      rw [scan_nodes_length]
      omega
    · rw [h]
      exact scan_nodes_nodup mem start n hr (i + 1) (by omega)
    · rw [h]
      intro hnone
      exact absurd hnone (by simp)
  · have h' := get_boiler_not_found c mem start n alliance n hr le_rfl hnq
    refine ⟨?_, by rw [h, h'], ⟨n, hr.1, le_rfl, by rw [h]⟩, ?_, ?_, ?_⟩
    · rw [h]
      simp
    · rw [h]
      show (scan_nodes mem start n).length ≤ n
      rw [scan_nodes_length]
    · rw [h]
      exact scan_nodes_nodup mem start n hr n le_rfl
    · rw [h]
      intro _
      exact ⟨rfl, hwrap⟩

/-! ### The scan loop accepts exactly the qualifying pairs -/

theorem loop_accepted (c : Config) (mem : Memory) (start alliance : Nat) :
    ∀ (fuel node x : Nat),
      (get_boiler_loop c mem start alliance fuel node).accepted = some x →
      qualifies c mem x ∧
        (get_boiler_loop c mem start alliance fuel node).outcome = resolve c mem alliance x := by
  intro fuel
  induction fuel with
  | zero =>
    intro node x h
    simp [get_boiler_loop] at h
  | succ fuel ih =>
    intro node x h
    by_cases hq : qualifies c mem node
    · rw [loop_accept c mem start alliance fuel node hq] at h ⊢
      have hx : node = x := by simpa using h
      subst hx
      exact ⟨hq, rfl⟩
    · by_cases hs : (mem node).next = start
      · rw [loop_wrap c mem start alliance fuel node hq hs] at h
        simp at h
      · rw [loop_advance c mem start alliance fuel node hq hs] at h ⊢
        exact ih (mem node).next x h

/-- C10 (amended): the angle window is the open interval.  The iteration of
the scan loop on `node` accepts the pair `(node, node->next)` if and only
if its turn angle is strictly between `TARGET_ANGLE - ANGLE_RANGE` and
`TARGET_ANGLE + ANGLE_RANGE` and the pair passes `test_distance`. -/
theorem loop_accepts_iff_open_window (c : Config) (mem : Memory)
    (start alliance fuel node : Nat) :
    (get_boiler_loop c mem start alliance (fuel + 1) node).accepted = some node ↔
      (c.TARGET_ANGLE - c.ANGLE_RANGE < get_angle (mem node).data (mem (mem node).next).data ∧
        get_angle (mem node).data (mem (mem node).next).data <
          c.TARGET_ANGLE + c.ANGLE_RANGE) ∧
        test_distance c.ENDPOINT_DISTANCE (mem node).data (mem (mem node).next).data = true := by
  constructor
  · intro h
    obtain ⟨⟨h1, h2⟩, h3⟩ := (loop_accepted c mem start alliance (fuel + 1) node node h).1
    exact ⟨⟨h2, h1⟩, h3⟩
  · rintro ⟨⟨h1, h2⟩, h3⟩
    rw [loop_accept c mem start alliance fuel node ⟨⟨h2, h1⟩, h3⟩]

/-! ### The alliance branches -/

theorem float_div_of_ne (a b : ℝ) (hb : b ≠ 0) : float_div a b = .ok (a / b) := by
  unfold float_div
  rw [if_neg hb]

theorem slope_sign_ne_zero (s : ℝ) : slope_sign s ≠ 0 := by
  unfold slope_sign
  split_ifs <;> norm_num

theorem sqrt_one_add_pos (x : ℝ) (hx : 0 ≤ x) : 0 < Real.sqrt (1 + x) :=
  Real.sqrt_pos.mpr (by linarith)

theorem add_assign_zero (v : ℝ) : add_assign 0 v = to_int16 v := by
  unfold add_assign
  rw [Int.cast_zero, zero_add]

/-- With a defined, non-zero slope the shallow case of the `BLUE_ALLIANCE`
branch overwrites the anchor: its result is the width and depth terms added
to `(0, 0)`, whatever `seg_b.start` is. -/
theorem blue_branch_shallow (c : Config) (b : line) (hst : steep b = false)
    (hx : b.end_x ≠ b.start_x) (hy : b.end_y ≠ b.start_y) :
    blue_branch c b =
      anchor_plus 0 0 (blue_width c false (slope_of b)) (blue_depth c false (slope_of b)) := by
  have hdx : ((b.end_x - b.start_x : Int) : ℝ) ≠ 0 := by
    exact_mod_cast sub_ne_zero.mpr hx
  have hdy : ((b.end_y - b.start_y : Int) : ℝ) ≠ 0 := by
    exact_mod_cast sub_ne_zero.mpr hy
  have hs : slope_of b ≠ 0 := div_ne_zero hdy hdx
  have hlt : ¬ b.end_x - b.start_x < b.end_y - b.start_y := by simpa [steep] using hst
  unfold blue_branch get_slope
  rw [float_div_of_ne _ _ hdx]
  rw [show ((b.end_y - b.start_y : Int) : ℝ) / ((b.end_x - b.start_x : Int) : ℝ) = slope_of b
    from rfl]
  generalize slope_of b = s at hs ⊢
  have hss : s * s ≠ 0 := mul_ne_zero hs hs
  have h1 : Real.sqrt (1 + s * s) ≠ 0 := (sqrt_one_add_pos _ (mul_self_nonneg _)).ne'
  have h2 : Real.sqrt (1 + 1 / (s * s)) ≠ 0 :=
    (sqrt_one_add_pos _ (div_nonneg zero_le_one (mul_self_nonneg _))).ne'
  have hsg : (if s > 0 then (-1 : ℝ) else 1) ≠ 0 := slope_sign_ne_zero s
  have hw2 : 2 * Real.sqrt (1 + s * s) ≠ 0 := mul_ne_zero two_ne_zero h1
  have hd2 : Real.sqrt (1 + 1 / (s * s)) * (if s > 0 then (-1 : ℝ) else 1) ≠ 0 :=
    mul_ne_zero h2 hsg
  have hd3 : s * (Real.sqrt (1 + 1 / (s * s)) * (if s > 0 then (-1 : ℝ) else 1)) ≠ 0 :=
    mul_ne_zero hs hd2
  simp only [bind, Except.bind, if_neg hlt, float_div_of_ne _ _ hw2, float_div_of_ne _ _ hss,
    float_div_of_ne _ _ hd2, float_div_of_ne _ _ hd3, anchor_plus, blue_width, blue_depth,
    slope_sign, Bool.false_eq_true, if_false, add_assign_zero]

/-! ### Angles of particular segments -/

theorem calculate_angle_eq_zero (l : line) (hy : l.start_y = l.end_y)
    (hx : l.end_x ≤ l.start_x) : calculate_angle l = 0 := by
  unfold calculate_angle atan2
  rw [Complex.arg_eq_zero_iff]
  refine ⟨?_, ?_⟩
  · show (0 : ℝ) ≤ ((l.start_x - l.end_x : Int) : ℝ)
    exact_mod_cast sub_nonneg.mpr hx
  · show ((l.start_y - l.end_y : Int) : ℝ) = 0
    rw [hy, sub_self, Int.cast_zero]

theorem calculate_angle_eq_pi_div_two (l : line) (hx : l.start_x = l.end_x)
    (hy : l.end_y < l.start_y) : calculate_angle l = Real.pi / 2 := by
  unfold calculate_angle atan2
  rw [Complex.arg_eq_pi_div_two_iff]
  refine ⟨?_, ?_⟩
  · show ((l.start_x - l.end_x : Int) : ℝ) = 0
    rw [hx, sub_self, Int.cast_zero]
  · show (0 : ℝ) < ((l.start_y - l.end_y : Int) : ℝ)
    exact_mod_cast sub_pos.mpr hy

theorem calculate_angle_third_quadrant (l : line) (hx : l.start_x < l.end_x)
    (hy : l.start_y < l.end_y) : calculate_angle l < -(Real.pi / 2) := by
  unfold calculate_angle atan2
  rw [← not_le, Complex.neg_pi_div_two_le_arg_iff]
  have h1 : ((l.start_x - l.end_x : Int) : ℝ) < 0 := by exact_mod_cast sub_neg.mpr hx
  have h2 : ((l.start_y - l.end_y : Int) : ℝ) < 0 := by exact_mod_cast sub_neg.mpr hy
  rintro (h | h)
  · exact absurd h (not_le.mpr h1)
  · exact absurd h (not_le.mpr h2)

theorem two_ring_valid (a b : line) : valid_ring (two_ring a b) 1 2 := by
  refine ⟨by decide, rfl, ?_⟩
  intro k hk hk0
  have : k = 1 := by omega
  subst this
  show (2 : Nat) ≠ 1
  decide

theorem blue_corner_qualifies : qualifies sample_config blue_corner_ring 1 := by
  refine ⟨?_, by decide⟩
  have ha : calculate_angle ⟨1000, 1010, 1000, 1000⟩ = Real.pi / 2 :=
    calculate_angle_eq_pi_div_two _ rfl (by decide)
  have hb := calculate_angle_third_quadrant ⟨1000, 1000, 1004, 1003⟩ (by decide) (by decide)
  have hb' := (calculate_angle_bounds ⟨1000, 1000, 1004, 1003⟩).1
  show get_angle ⟨1000, 1010, 1000, 1000⟩ ⟨1000, 1000, 1004, 1003⟩ < 3 * Real.pi / 4 + Real.pi / 4 ∧
    get_angle ⟨1000, 1010, 1000, 1000⟩ ⟨1000, 1000, 1004, 1003⟩ > 3 * Real.pi / 4 - Real.pi / 4
  unfold get_angle
  simp only [ha]
  have hpi := Real.pi_pos
  split_ifs <;> constructor <;> linarith

theorem blue_corner_second_pair : ¬ angle_in_window sample_config blue_corner_ring 2 := by
  have ha : calculate_angle ⟨1000, 1010, 1000, 1000⟩ = Real.pi / 2 :=
    calculate_angle_eq_pi_div_two _ rfl (by decide)
  have hb := calculate_angle_third_quadrant ⟨1000, 1000, 1004, 1003⟩ (by decide) (by decide)
  rintro ⟨h, -⟩
  change get_angle ⟨1000, 1000, 1004, 1003⟩ ⟨1000, 1010, 1000, 1000⟩ <
    3 * Real.pi / 4 + Real.pi / 4 at h
  unfold get_angle at h
  simp only [ha] at h
  have hpi := Real.pi_pos
  split_ifs at h <;> linarith

theorem gap_ring_second_pair :
    Real.pi < get_angle ⟨2000, 2000, 2004, 2003⟩ ⟨1000, 1010, 1000, 1000⟩ := by
  have ha : calculate_angle ⟨1000, 1010, 1000, 1000⟩ = Real.pi / 2 :=
    calculate_angle_eq_pi_div_two _ rfl (by decide)
  have hb := calculate_angle_third_quadrant ⟨2000, 2000, 2004, 2003⟩ (by decide) (by decide)
  unfold get_angle
  simp only [ha]
  have hpi := Real.pi_pos
  split_ifs <;> linarith

theorem truncate_intCast (n : Int) : truncate (n : ℝ) = n := by
  unfold truncate
  split_ifs <;> simp

theorem add_assign_intCast (d n : Int) (h : int16_range (d + n)) :
    add_assign d (n : ℝ) = .ok (d + n) := by
  unfold add_assign to_int16
  rw [← Int.cast_add, truncate_intCast, if_pos h]

theorem anchor_plus_intCast (x y wx wy dx dy : Int)
    (h1 : int16_range (x + wx)) (h2 : int16_range (y + wy))
    (h3 : int16_range (x + wx + dx)) (h4 : int16_range (y + wy + dy)) :
    anchor_plus x y ((wx : ℝ), (wy : ℝ)) ((dx : ℝ), (dy : ℝ)) =
      .ok ⟨x + wx + dx, y + wy + dy⟩ := by
  unfold anchor_plus
  simp only [bind, Except.bind, add_assign_intCast _ _ h1, add_assign_intCast _ _ h2,
    add_assign_intCast _ _ h3, add_assign_intCast _ _ h4]
  rfl

theorem sqrt_slope_three_quarters : Real.sqrt (1 + 3 / 4 * (3 / 4)) = 5 / 4 := by
  rw [show (1 + 3 / 4 * (3 / 4) : ℝ) = (5 / 4) ^ 2 by norm_num]
  exact Real.sqrt_sq (by norm_num)

theorem sqrt_inverse_three_quarters : Real.sqrt (1 + 1 / (3 / 4 * (3 / 4))) = 5 / 3 := by
  rw [show (1 + 1 / (3 / 4 * (3 / 4)) : ℝ) = (5 / 3) ^ 2 by norm_num]
  exact Real.sqrt_sq (by norm_num)

theorem slope_of_blue_corner : slope_of ⟨1000, 1000, 1004, 1003⟩ = 3 / 4 := by
  unfold slope_of
  norm_num

theorem blue_width_sample :
    blue_width sample_config false (3 / 4) = (((4 : Int) : ℝ), ((3 : Int) : ℝ)) := by
  unfold blue_width
  simp only [Bool.false_eq_true, if_false, sqrt_slope_three_quarters]
  show ((10 : ℝ) / (2 * (5 / 4)), 3 / 4 * (10 : ℝ) / (2 * (5 / 4))) = _
  norm_num

theorem blue_depth_sample :
    blue_depth sample_config false (3 / 4) = (((3 : Int) : ℝ), ((-4 : Int) : ℝ)) := by
  unfold blue_depth slope_sign
  simp only [Bool.false_eq_true, if_false, sqrt_inverse_three_quarters]
  rw [if_pos (by norm_num)]
  show (-(5 : ℝ) / (5 / 3 * -1), (5 : ℝ) / (3 / 4 * (5 / 3 * -1))) = _
  norm_num

theorem two_ring_valid_second (a b : line) : valid_ring (two_ring a b) 2 2 := by
  refine ⟨by decide, rfl, ?_⟩
  intro k hk hk0
  have : k = 1 := by omega
  subst this
  show (1 : Nat) ≠ 2
  decide

theorem blue_branch_sample :
    blue_branch sample_config ⟨1000, 1000, 1004, 1003⟩ = .ok ⟨7, -1⟩ := by
  rw [blue_branch_shallow sample_config _ (by decide) (by decide) (by decide),
    slope_of_blue_corner, blue_width_sample, blue_depth_sample,
    anchor_plus_intCast 0 0 4 3 3 (-4) (by decide) (by decide) (by decide) (by decide)]
  rfl

/-! ### The resolver's contract -/

/-- When both coordinate differences are `int16_t` values, `test_distance`
compares the true squared distance with the squared threshold. -/
theorem test_distance_exact (E : Nat) (line1 line2 : line)
    (hx : int16_range (line1.end_x - line2.start_x))
    (hy : int16_range (line1.end_y - line2.start_y)) :
    test_distance E line1 line2 = true ↔
      (line1.end_x - line2.start_x) ^ 2 + (line1.end_y - line2.start_y) ^ 2 <
        (E : Int) ^ 2 := by
  obtain ⟨hx1, hx2⟩ := hx
  obtain ⟨hy1, hy2⟩ := hy
  have wx : wrap_int16 (line1.end_x - line2.start_x) = line1.end_x - line2.start_x := by
    unfold wrap_int16
    omega
  have wy : wrap_int16 (line1.end_y - line2.start_y) = line1.end_y - line2.start_y := by
    unfold wrap_int16
    omega
  have bx : (line1.end_x - line2.start_x) * (line1.end_x - line2.start_x) ≤ 32768 * 32768 := by
    nlinarith
  have b_y : (line1.end_y - line2.start_y) * (line1.end_y - line2.start_y) ≤ 32768 * 32768 := by
    nlinarith
  have nx : 0 ≤ (line1.end_x - line2.start_x) * (line1.end_x - line2.start_x) :=
    mul_self_nonneg _
  have ny : 0 ≤ (line1.end_y - line2.start_y) * (line1.end_y - line2.start_y) :=
    mul_self_nonneg _
  have wsum : wrap_uint32 ((line1.end_x - line2.start_x) * (line1.end_x - line2.start_x) +
      (line1.end_y - line2.start_y) * (line1.end_y - line2.start_y)) =
      (line1.end_x - line2.start_x) * (line1.end_x - line2.start_x) +
        (line1.end_y - line2.start_y) * (line1.end_y - line2.start_y) := by
    unfold wrap_uint32
    exact Int.emod_eq_of_lt (by linarith) (by linarith)
  unfold test_distance
  simp only [wx, wy, wsum, decide_eq_true_eq, sq]

/-- C7 (failing input): on the two-segment ring whose corner is at
`(1000, 1000)` and whose second segment has slope `3/4` (shallow), the
`BLUE_ALLIANCE` call accepts the corner and returns `(7, -1)`, the width
and depth terms alone, where anchor plus terms is `(1007, 999)`. -/
theorem blue_shallow_drops_anchor :
    valid_ring blue_corner_ring 1 2 ∧
      (get_boiler sample_config blue_corner_ring 1 sample_config.BLUE_ALLIANCE 2).accepted =
        some 1 ∧
      (get_boiler sample_config blue_corner_ring 1 sample_config.BLUE_ALLIANCE 2).outcome =
        .returned ⟨7, -1⟩ ∧
      anchor_plus 1000 1000
          (blue_width sample_config (steep ⟨1000, 1000, 1004, 1003⟩)
            (slope_of ⟨1000, 1000, 1004, 1003⟩))
          (blue_depth sample_config (steep ⟨1000, 1000, 1004, 1003⟩)
            (slope_of ⟨1000, 1000, 1004, 1003⟩)) = .ok ⟨1007, 999⟩ := by
  have hrun := get_boiler_found sample_config blue_corner_ring 1 2 sample_config.BLUE_ALLIANCE
    2 0 (two_ring_valid _ _) le_rfl (by decide) blue_corner_qualifies
    (fun k hk => absurd hk (Nat.not_lt_zero k))
  refine ⟨two_ring_valid _ _, by rw [hrun]; rfl, ?_, ?_⟩
  · rw [hrun]
    show resolve sample_config blue_corner_ring sample_config.BLUE_ALLIANCE 1 = _
    unfold resolve
    rw [if_pos rfl]
    show Outcome.of_branch (blue_branch sample_config ⟨1000, 1000, 1004, 1003⟩) = _
    rw [blue_branch_sample]
    rfl
  · rw [show steep ⟨1000, 1000, 1004, 1003⟩ = false by decide, slope_of_blue_corner,
      blue_width_sample, blue_depth_sample,
      anchor_plus_intCast 1000 1000 4 3 3 (-4) (by decide) (by decide) (by decide) (by decide)]
    rfl

/-! ### Instances on the sample rings -/

/-- C1 (instance): alliance `7` on a ring whose first pair qualifies. -/
theorem get_boiler_invalid_alliance_witness :
    qualifies sample_config blue_corner_ring 1 ∧
      (get_boiler sample_config blue_corner_ring 1 7 2).outcome = .returned ⟨0, 0⟩ :=
  ⟨blue_corner_qualifies,
    get_boiler_invalid_alliance sample_config blue_corner_ring 1 2 7 2 (two_ring_valid _ _)
      le_rfl (by decide) (by decide)⟩

/-- C2 (instance): a ring whose only pair in the angle window is not adjacent. -/
theorem get_boiler_no_corner_witness :
    valid_ring gap_ring 1 2 ∧
      (get_boiler sample_config gap_ring 1 sample_config.BLUE_ALLIANCE 2).accepted = none ∧
      (get_boiler sample_config gap_ring 1 sample_config.BLUE_ALLIANCE 2).outcome =
        .returned ⟨0, 0⟩ :=
  ⟨two_ring_valid _ _,
    get_boiler_no_corner sample_config gap_ring 1 2 sample_config.BLUE_ALLIANCE 2
      (two_ring_valid _ _) le_rfl (by
        intro k hk
        interval_cases k
        · intro _ _
          decide
        · intro _ h2
          change get_angle ⟨2000, 2000, 2004, 2003⟩ ⟨1000, 1010, 1000, 1000⟩ ≤
            3 * Real.pi / 4 + Real.pi / 4 at h2
          have := gap_ring_second_pair
          have hpi := Real.pi_pos
          linarith)⟩

/-- C3 (instance): the two starts of a ring with one qualifying corner. -/
theorem get_boiler_rotation_invariant_witness :
    (get_boiler sample_config blue_corner_ring 2 sample_config.BLUE_ALLIANCE 2).accepted =
        some 1 ∧
      (get_boiler sample_config blue_corner_ring 2 sample_config.BLUE_ALLIANCE 2).accepted =
        (get_boiler sample_config blue_corner_ring 1 sample_config.BLUE_ALLIANCE 2).accepted ∧
      (get_boiler sample_config blue_corner_ring 2 sample_config.BLUE_ALLIANCE 2).outcome =
        (get_boiler sample_config blue_corner_ring 1 sample_config.BLUE_ALLIANCE 2).outcome :=
  get_boiler_rotation_invariant sample_config blue_corner_ring 1 2
    sample_config.BLUE_ALLIANCE 2 0 1 (two_ring_valid _ _) le_rfl (by decide)
    blue_corner_qualifies
    (by
      intro k hk hq
      interval_cases k
      · rfl
      · exact absurd hq.1 blue_corner_second_pair)
    (by decide)

/-- C6 (instance): entered at node `2`, the scan accepts the second pair it meets. -/
theorem get_boiler_first_match_witness :
    (get_boiler sample_config blue_corner_ring 2 sample_config.RED_ALLIANCE 2).accepted =
        some 1 ∧
      (get_boiler sample_config blue_corner_ring 2 sample_config.RED_ALLIANCE 2).outcome =
        .of_branch (red_branch sample_config ⟨1000, 1010, 1000, 1000⟩) :=
  have h := get_boiler_first_match sample_config blue_corner_ring 2 2
    sample_config.RED_ALLIANCE 2 1 (two_ring_valid_second _ _) le_rfl (by decide)
    blue_corner_qualifies
    (by
      intro k hk hq
      interval_cases k
      exact absurd hq.1 blue_corner_second_pair)
  ⟨h.1, h.2.1⟩

/-- C9 (instance): a ring of two segments, with more fuel than needed. -/
theorem get_boiler_terminates_witness :
    (get_boiler sample_config boundary_ring 1 sample_config.BLUE_ALLIANCE 5).outcome ≠
        .out_of_fuel ∧
      (get_boiler sample_config boundary_ring 1 sample_config.BLUE_ALLIANCE 5).examined.length
        ≤ 2 :=
  have h := get_boiler_terminates sample_config boundary_ring 1 2
    sample_config.BLUE_ALLIANCE 5 (two_ring_valid _ _) (by decide)
  ⟨h.1, h.2.2.2.1⟩

/-! ### The decomposition -/

/-- C11: in the steep and in the shallow class, for every slope (the
non-zero ones in particular), the two `BOILER_WIDTH` terms of the
`BLUE_ALLIANCE` branch equal those of the `RED_ALLIANCE` branch, and the
two `BOILER_DEPTH` terms of the `BLUE_ALLIANCE` branch are the negations of
those of the `RED_ALLIANCE` branch, in `x` and in `y`, over the reals. -/
theorem blue_red_mirror (c : Config) (is_steep : Bool) (slope : ℝ) :
    (blue_width c is_steep slope).1 = (red_width c is_steep slope).1 ∧
      (blue_width c is_steep slope).2 = (red_width c is_steep slope).2 ∧
      (blue_depth c is_steep slope).1 = -(red_depth c is_steep slope).1 ∧
      (blue_depth c is_steep slope).2 = -(red_depth c is_steep slope).2 := by
  unfold blue_width red_width blue_depth red_depth
  cases is_steep
  · simp only [Bool.false_eq_true, if_false]
    exact ⟨trivial, trivial, by ring, by ring⟩
  · simp only [if_true]
    exact ⟨trivial, trivial, by ring, by ring⟩

/-- C12 (counterexample): the segment from `(1004, 1003)` to `(1000, 1000)`
passes the steep test although `|end_y - start_y| = 3` is less than
`|end_x - start_x| = 4`. -/
theorem steep_test_signed :
    steep ⟨1004, 1003, 1000, 1000⟩ = true ∧
      ¬ (|(⟨1004, 1003, 1000, 1000⟩ : line).end_y - (⟨1004, 1003, 1000, 1000⟩ : line).start_y| >
        |(⟨1004, 1003, 1000, 1000⟩ : line).end_x - (⟨1004, 1003, 1000, 1000⟩ : line).start_x|) := by
  decide

theorem sqrt_one_add_mul_self (s : ℝ) :
    Real.sqrt (1 + s * s) * Real.sqrt (1 + s * s) = 1 + s * s :=
  Real.mul_self_sqrt (by nlinarith [mul_self_nonneg s])

theorem sqrt_one_add_inverse_mul_self (s : ℝ) :
    Real.sqrt (1 + 1 / (s * s)) * Real.sqrt (1 + 1 / (s * s)) = 1 + 1 / (s * s) :=
  Real.mul_self_sqrt (by
    have := div_nonneg zero_le_one (mul_self_nonneg s)
    linarith)

theorem slope_sign_mul_self (s : ℝ) : slope_sign s * slope_sign s = 1 := by
  unfold slope_sign
  split_ifs <;> norm_num

theorem euclidean_length_of_sq (v : ℝ × ℝ) (r : ℝ) (hr : 0 ≤ r)
    (h : v.1 * v.1 + v.2 * v.2 = r * r) : euclidean_length v = r := by
  unfold euclidean_length
  rw [h]
  exact Real.sqrt_mul_self hr

/-- The squared length of a width vector of either form. -/
theorem width_sq (W s k : ℝ) (hk : k * k = 1) :
    (s * W / (2 * Real.sqrt (1 + s * s) * k)) * (s * W / (2 * Real.sqrt (1 + s * s) * k)) +
        (W / (2 * Real.sqrt (1 + s * s) * k)) * (W / (2 * Real.sqrt (1 + s * s) * k)) =
      W / 2 * (W / 2) := by
  have hr : Real.sqrt (1 + s * s) ≠ 0 := (sqrt_one_add_pos _ (mul_self_nonneg _)).ne'
  have hk0 : k ≠ 0 := by
    intro h0
    rw [h0] at hk
    norm_num at hk
  have h2 := sqrt_one_add_mul_self s
  field_simp
  linear_combination (-4 * W * W * (k * k)) * h2 + (-4 * W * W * (1 + s * s)) * hk

/-- The squared length of a depth vector of either form. -/
theorem depth_sq (D s k : ℝ) (hs : s ≠ 0) (hk : k * k = 1) :
    (D / (Real.sqrt (1 + 1 / (s * s)) * k)) * (D / (Real.sqrt (1 + 1 / (s * s)) * k)) +
        (D / (s * (Real.sqrt (1 + 1 / (s * s)) * k))) *
          (D / (s * (Real.sqrt (1 + 1 / (s * s)) * k))) =
      D * D := by
  have hq : Real.sqrt (1 + 1 / (s * s)) ≠ 0 :=
    (sqrt_one_add_pos _ (div_nonneg zero_le_one (mul_self_nonneg _))).ne'
  have h2 := sqrt_one_add_inverse_mul_self s
  have h3 : Real.sqrt (1 + 1 / (s * s)) * Real.sqrt (1 + 1 / (s * s)) * (s * s) = s * s + 1 := by
    rw [h2]
    field_simp
  clear h2
  generalize Real.sqrt (1 + 1 / (s * s)) = q at hq h3 ⊢
  rcases mul_self_eq_one_iff.mp hk with rfl | rfl
  · field_simp
    linear_combination (-(D * D * (q * q))) * h3
  · field_simp
    linear_combination (-(D * D * (q * q))) * h3

/-- C13: for every non-zero slope, in each of the four branches (either
alliance, steep or shallow) the width contribution has Euclidean length
`BOILER_WIDTH / 2` and the depth contribution has Euclidean length
`BOILER_DEPTH`, over the reals, the two dimensions being non-negative. -/
theorem contribution_lengths (c : Config) (is_steep : Bool) (slope : ℝ) (hs : slope ≠ 0)
    (hW : 0 ≤ c.BOILER_WIDTH) (hD : 0 ≤ c.BOILER_DEPTH) :
    euclidean_length (blue_width c is_steep slope) = c.BOILER_WIDTH / 2 ∧
      euclidean_length (blue_depth c is_steep slope) = c.BOILER_DEPTH ∧
      euclidean_length (red_width c is_steep slope) = c.BOILER_WIDTH / 2 ∧
      euclidean_length (red_depth c is_steep slope) = c.BOILER_DEPTH := by
  have hW2 : 0 ≤ c.BOILER_WIDTH / 2 := by linarith
  have w1 := width_sq c.BOILER_WIDTH slope 1 (by norm_num)
  have wk := width_sq c.BOILER_WIDTH slope (slope_sign slope) (slope_sign_mul_self slope)
  have d1 := depth_sq c.BOILER_DEPTH slope 1 hs (by norm_num)
  have dk := depth_sq c.BOILER_DEPTH slope (slope_sign slope) hs (slope_sign_mul_self slope)
  simp only [mul_one] at w1 d1
  unfold blue_width blue_depth red_width red_depth
  cases is_steep
  · simp only [Bool.false_eq_true, if_false]
    refine ⟨euclidean_length_of_sq _ _ hW2 ?_, euclidean_length_of_sq _ _ hD ?_,
      euclidean_length_of_sq _ _ hW2 ?_, euclidean_length_of_sq _ _ hD ?_⟩
    · linear_combination w1
    · linear_combination dk
    · linear_combination w1
    · linear_combination dk
  · simp only [if_true]
    refine ⟨euclidean_length_of_sq _ _ hW2 ?_, euclidean_length_of_sq _ _ hD ?_,
      euclidean_length_of_sq _ _ hW2 ?_, euclidean_length_of_sq _ _ hD ?_⟩
    · linear_combination wk
    · linear_combination d1
    · linear_combination wk
    · linear_combination d1

/-- C13 (instance): slope `3/4` with the sample dimensions, steep class. -/
theorem contribution_lengths_witness :
    euclidean_length (blue_width sample_config true (3 / 4)) = sample_config.BOILER_WIDTH / 2 ∧
      euclidean_length (blue_depth sample_config true (3 / 4)) = sample_config.BOILER_DEPTH ∧
      euclidean_length (red_width sample_config true (3 / 4)) = sample_config.BOILER_WIDTH / 2 ∧
      euclidean_length (red_depth sample_config true (3 / 4)) = sample_config.BOILER_DEPTH :=
  contribution_lengths sample_config true (3 / 4) (by norm_num)
    (by show (0 : ℝ) ≤ 10; norm_num) (by show (0 : ℝ) ≤ 5; norm_num)

theorem slope_sign_sample (s : ℝ) (h : 0 < s) : slope_sign s = -1 := by
  unfold slope_sign
  rw [if_pos h]

theorem slope_of_steep_sample : slope_of ⟨1000, 1000, 1001, 1002⟩ = 2 := by
  unfold slope_of
  norm_num

/-- C14 (counterexample): the segment from `(1000, 1000)` to `(1001, 1002)`
is steep with slope `2`; with the sample dimensions the width terms of both
alliances are not parallel to `(1, 2)` and the depth terms are not
perpendicular to it. -/
theorem steep_terms_off_direction :
    steep ⟨1000, 1000, 1001, 1002⟩ = true ∧
      slope_of ⟨1000, 1000, 1001, 1002⟩ = 2 ∧
      ¬ parallel_to (blue_width sample_config (steep ⟨1000, 1000, 1001, 1002⟩)
          (slope_of ⟨1000, 1000, 1001, 1002⟩)) (1, slope_of ⟨1000, 1000, 1001, 1002⟩) ∧
      ¬ perpendicular_to (blue_depth sample_config (steep ⟨1000, 1000, 1001, 1002⟩)
          (slope_of ⟨1000, 1000, 1001, 1002⟩)) (1, slope_of ⟨1000, 1000, 1001, 1002⟩) ∧
      ¬ parallel_to (red_width sample_config (steep ⟨1000, 1000, 1001, 1002⟩)
          (slope_of ⟨1000, 1000, 1001, 1002⟩)) (1, slope_of ⟨1000, 1000, 1001, 1002⟩) ∧
      ¬ perpendicular_to (red_depth sample_config (steep ⟨1000, 1000, 1001, 1002⟩)
          (slope_of ⟨1000, 1000, 1001, 1002⟩)) (1, slope_of ⟨1000, 1000, 1001, 1002⟩) := by
  have hst : steep ⟨1000, 1000, 1001, 1002⟩ = true := by decide
  have hr : Real.sqrt (1 + 2 * 2) ≠ 0 := (sqrt_one_add_pos _ (by norm_num)).ne'
  have hq : Real.sqrt (1 + 1 / (2 * 2)) ≠ 0 := (sqrt_one_add_pos _ (by norm_num)).ne'
  have h5 : (0 : ℝ) < Real.sqrt 5 := Real.sqrt_pos.mpr (by norm_num)
  rw [hst, slope_of_steep_sample]
  refine ⟨rfl, rfl, ?_, ?_, ?_, ?_⟩
  · unfold parallel_to blue_width
    simp only [if_true, slope_sign_sample 2 (by norm_num)]
    show ¬ (2 * (10 : ℝ) / (2 * Real.sqrt (1 + 2 * 2) * -1) * 2 -
      (10 : ℝ) / (2 * Real.sqrt (1 + 2 * 2) * -1) * 1 = 0)
    intro h
    field_simp at h
    norm_num at h
  · unfold perpendicular_to blue_depth
    simp only [if_true]
    show ¬ (-(5 : ℝ) / (2 * Real.sqrt (1 + 1 / (2 * 2))) * 1 +
      (5 : ℝ) / Real.sqrt (1 + 1 / (2 * 2)) * 2 = 0)
    intro h
    field_simp at h
    norm_num at h
    linarith
  · unfold parallel_to red_width
    simp only [if_true, slope_sign_sample 2 (by norm_num)]
    show ¬ (2 * (10 : ℝ) / (2 * Real.sqrt (1 + 2 * 2) * -1) * 2 -
      (10 : ℝ) / (2 * Real.sqrt (1 + 2 * 2) * -1) * 1 = 0)
    intro h
    field_simp at h
    norm_num at h
  · unfold perpendicular_to red_depth
    simp only [if_true]
    show ¬ ((5 : ℝ) / (2 * Real.sqrt (1 + 1 / (2 * 2))) * 1 +
      -(5 : ℝ) / Real.sqrt (1 + 1 / (2 * 2)) * 2 = 0)
    intro h
    field_simp at h
    norm_num at h

/-- C14 (amended): for every non-zero slope `s` and both alliances, in the
shallow branch the width contribution is parallel to the segment direction
`(1, s)` and the depth contribution is perpendicular to it; in the steep
and in the shallow branch the width and the depth contribution are
perpendicular to each other. -/
theorem shallow_terms_along_direction (c : Config) (is_steep : Bool) (slope : ℝ)
    (hs : slope ≠ 0) :
    parallel_to (blue_width c false slope) (1, slope) ∧
      perpendicular_to (blue_depth c false slope) (1, slope) ∧
      parallel_to (red_width c false slope) (1, slope) ∧
      perpendicular_to (red_depth c false slope) (1, slope) ∧
      perpendicular_to (blue_width c is_steep slope) (blue_depth c is_steep slope) ∧
      perpendicular_to (red_width c is_steep slope) (red_depth c is_steep slope) := by
  have hr : Real.sqrt (1 + slope * slope) ≠ 0 := (sqrt_one_add_pos _ (mul_self_nonneg _)).ne'
  have hq : Real.sqrt (1 + 1 / (slope * slope)) ≠ 0 :=
    (sqrt_one_add_pos _ (div_nonneg zero_le_one (mul_self_nonneg _))).ne'
  have hk := slope_sign_ne_zero slope
  unfold parallel_to perpendicular_to blue_width blue_depth red_width red_depth
  generalize Real.sqrt (1 + slope * slope) = r at hr ⊢
  generalize Real.sqrt (1 + 1 / (slope * slope)) = q at hq ⊢
  generalize slope_sign slope = k at hk ⊢
  simp only [Bool.false_eq_true, if_false]
  refine ⟨?_, ?_, ?_, ?_, ?_, ?_⟩
  · field_simp
    ring
  · field_simp
    ring
  · field_simp
    ring
  · field_simp
    ring
  · cases is_steep
    · simp only [Bool.false_eq_true, if_false]
      field_simp
      ring
    · simp only [if_true]
      field_simp
      ring
  · cases is_steep
    · simp only [Bool.false_eq_true, if_false]
      field_simp
      ring
    · simp only [if_true]
      field_simp
      ring

/-- C14 (instance): slope `3/4` with the sample dimensions. -/
theorem shallow_terms_along_direction_witness :
    parallel_to (blue_width sample_config false (3 / 4)) (1, 3 / 4) ∧
      perpendicular_to (blue_depth sample_config false (3 / 4)) (1, 3 / 4) ∧
      parallel_to (red_width sample_config false (3 / 4)) (1, 3 / 4) ∧
      perpendicular_to (red_depth sample_config false (3 / 4)) (1, 3 / 4) ∧
      perpendicular_to (blue_width sample_config true (3 / 4))
        (blue_depth sample_config true (3 / 4)) ∧
      perpendicular_to (red_width sample_config true (3 / 4))
        (red_depth sample_config true (3 / 4)) :=
  shallow_terms_along_direction sample_config true (3 / 4) (by norm_num)

/-! ### Division safety -/

theorem to_int16_cases (v : ℝ) :
    (∃ t, to_int16 v = .ok t) ∨ to_int16 v = .error .int16_conversion := by
  unfold to_int16
  split_ifs
  · exact Or.inl ⟨_, rfl⟩
  · exact Or.inr rfl

theorem straight_angle (a b : line) (ha : a.start_y = a.end_y) (hax : a.end_x ≤ a.start_x)
    (hb : b.start_y = b.end_y) (hbx : b.end_x ≤ b.start_x) : get_angle a b = 0 := by
  unfold get_angle
  simp only [calculate_angle_eq_zero a ha hax, calculate_angle_eq_zero b hb hbx, sub_self,
    lt_irrefl, if_false]

theorem straight_ring_no_corner :
    ∀ k < 2, ¬ qualifies wide_config straight_ring (nth_node straight_ring 1 k) := by
  intro k hk
  interval_cases k
  · rintro ⟨⟨-, h⟩, -⟩
    change get_angle ⟨200, 0, 100, 0⟩ ⟨100, 0, 0, 0⟩ > 3 * Real.pi / 4 - 3 * Real.pi / 4 at h
    rw [straight_angle _ _ rfl (by decide) rfl (by decide), sub_self] at h
    exact lt_irrefl _ h
  · rintro ⟨⟨-, h⟩, -⟩
    change get_angle ⟨100, 0, 0, 0⟩ ⟨200, 0, 100, 0⟩ > 3 * Real.pi / 4 - 3 * Real.pi / 4 at h
    rw [straight_angle _ _ rfl (by decide) rfl (by decide), sub_self] at h
    exact lt_irrefl _ h

/-- C10 (counterexample): with `ANGLE_RANGE = TARGET_ANGLE` the lower end of
the window is `0`.  In `straight_ring` the pair of nodes `1` and `2` has a
turn angle of exactly `0 = TARGET_ANGLE - ANGLE_RANGE` (both segment angles
are `atan2(0, 100)`), lies inside the closed window, passes
`test_distance`, and the alliance is `BLUE_ALLIANCE`; yet `get_boiler`
accepts nothing and returns the sentinel. -/
theorem zero_boundary_angle_rejected :
    valid_ring straight_ring 1 2 ∧
      get_angle (straight_ring 1).data (straight_ring (straight_ring 1).next).data =
        wide_config.TARGET_ANGLE - wide_config.ANGLE_RANGE ∧
      get_angle (straight_ring 1).data (straight_ring (straight_ring 1).next).data ≤
        wide_config.TARGET_ANGLE + wide_config.ANGLE_RANGE ∧
      test_distance wide_config.ENDPOINT_DISTANCE (straight_ring 1).data
        (straight_ring (straight_ring 1).next).data = true ∧
      (get_boiler wide_config straight_ring 1 wide_config.BLUE_ALLIANCE 2).accepted = none ∧
      (get_boiler wide_config straight_ring 1 wide_config.BLUE_ALLIANCE 2).outcome =
        .returned ⟨0, 0⟩ := by
  have hrun := get_boiler_not_found wide_config straight_ring 1 2
    wide_config.BLUE_ALLIANCE 2 (two_ring_valid _ _) le_rfl straight_ring_no_corner
  have hangle : get_angle (straight_ring 1).data (straight_ring (straight_ring 1).next).data
      = 0 := by
    show get_angle ⟨200, 0, 100, 0⟩ ⟨100, 0, 0, 0⟩ = 0
    exact straight_angle _ _ rfl (by decide) rfl (by decide)
  have hpi := Real.pi_pos
  refine ⟨two_ring_valid _ _, ?_, ?_, by decide, by rw [hrun], by rw [hrun]⟩
  · rw [hangle]
    show (0 : ℝ) = 3 * Real.pi / 4 - 3 * Real.pi / 4
    rw [sub_self]
  · rw [hangle]
    show (0 : ℝ) ≤ 3 * Real.pi / 4 + 3 * Real.pi / 4
    linarith

/-- C12 (amended): for every segment the steep test is the signed comparison
`end_x - start_x < end_y - start_y`; when the coordinate differences have a
positive sum it is true exactly when `|end_y - start_y| > |end_x - start_x|`
(and when their sum is negative, exactly when
`|end_y - start_y| < |end_x - start_x|`). -/
theorem steep_is_signed_comparison (l : line) :
    (steep l = true ↔ l.end_x - l.start_x < l.end_y - l.start_y) ∧
      (0 < (l.end_x - l.start_x) + (l.end_y - l.start_y) →
        (steep l = true ↔ |l.end_y - l.start_y| > |l.end_x - l.start_x|)) ∧
      ((l.end_x - l.start_x) + (l.end_y - l.start_y) < 0 →
        (steep l = true ↔ |l.end_y - l.start_y| < |l.end_x - l.start_x|)) := by
  have h1 : steep l = true ↔ l.end_x - l.start_x < l.end_y - l.start_y := by
    simp [steep]
  have hx := abs_cases (l.end_x - l.start_x)
  have hy := abs_cases (l.end_y - l.start_y)
  refine ⟨h1, fun h => h1.trans ?_, fun h => h1.trans ?_⟩
  · constructor <;> intro _ <;> omega
  · constructor <;> intro _ <;> omega

/-- C12 (instance): a segment whose coordinate differences are `1` and `2`
(positive sum), and the segment of the counterexample, whose differences
are `-4` and `-3`. -/
theorem steep_is_signed_comparison_witness :
    (steep ⟨1000, 1000, 1001, 1002⟩ = true ↔ |(1002 : Int) - 1000| > |(1001 : Int) - 1000|) ∧
      (steep ⟨1004, 1003, 1000, 1000⟩ = true ↔ (1000 : Int) - 1004 < 1000 - 1003) ∧
      (steep ⟨1004, 1003, 1000, 1000⟩ = true ↔ |(1000 : Int) - 1003| < |(1000 : Int) - 1004|) :=
  ⟨(steep_is_signed_comparison ⟨1000, 1000, 1001, 1002⟩).2.1 (by decide),
    (steep_is_signed_comparison ⟨1004, 1003, 1000, 1000⟩).1,
    (steep_is_signed_comparison ⟨1004, 1003, 1000, 1000⟩).2.2 (by decide)⟩

end Lidar
